import Mathlib

/-!
Verification of the nextWeb HTTP front-end (src/main.rs).

The development shallowly embeds the request-handling core of the program:
the request-line extractor, the static-file responder, the proxy responder
with its header rewriting, and the per-connection dispatcher with its
access-log record and status classification.  Text is modelled as
`List Char`, raw socket data as `List Nat` (bytes); external effects
(filesystem, outbound network) are oracle parameters.  A `none` result of
an embedded function models a Rust panic.
-/

set_option maxRecDepth 10000

/-- Abbreviation turning a string literal into the `List Char` the model works on. -/
def str (s : String) : List Char := s.toList

/-- The Unicode replacement character U+FFFD emitted by `String::from_utf8_lossy`
for each maximal invalid byte sequence. -/
def repChar : Char := Char.ofNat 0xFFFD

/-- Decoder state of the byte-at-a-time UTF-8 validation loop
(`core::str::validations`): `needed` continuation bytes are still expected,
the next one must lie in `lo..hi`, and `acc` is the scalar value accumulated
so far.  `needed = 0` means no sequence is pending. -/
structure Utf8State where
  needed : Nat
  lo : Nat
  hi : Nat
  acc : Nat
deriving DecidableEq

/-- Process one byte in lead position, exactly as Rust's UTF-8 validation:
ASCII passes through; `0x80..0xC1` and `0xF5..` are invalid (one replacement
character); otherwise a 2-, 3- or 4-byte sequence starts, with the
first-continuation range restricted per lead byte (rejecting overlong forms
and surrogates). -/
def utf8Lead (b : Nat) : List Char × Utf8State :=
  if b < 0x80 then ([Char.ofNat b], ⟨0, 0, 0, 0⟩)
  else if b < 0xC2 then ([repChar], ⟨0, 0, 0, 0⟩)
  else if b < 0xE0 then ([], ⟨1, 0x80, 0xBF, b - 0xC0⟩)
  else if b < 0xF0 then
    ([], ⟨2, if b = 0xE0 then 0xA0 else 0x80, if b = 0xED then 0x9F else 0xBF, b - 0xE0⟩)
  else if b < 0xF5 then
    ([], ⟨3, if b = 0xF0 then 0x90 else 0x80, if b = 0xF4 then 0x8F else 0xBF, b - 0xF0⟩)
  else ([repChar], ⟨0, 0, 0, 0⟩)

/-- The UTF-8 lossy-decoding loop.  An invalid continuation byte emits one
replacement character for the partial sequence and reprocesses the offending
byte as a lead (Rust's substitution of maximal subparts); a sequence left
incomplete at end of input emits one replacement character. -/
def utf8Go : Utf8State → List Nat → List Char
  | s, [] => if s.needed = 0 then [] else [repChar]
  | s, b :: rest =>
    if s.needed = 0 then
      (utf8Lead b).1 ++ utf8Go (utf8Lead b).2 rest
    else if s.lo ≤ b ∧ b ≤ s.hi then
      if s.needed = 1 then
        Char.ofNat (s.acc * 0x40 + (b - 0x80)) :: utf8Go ⟨0, 0, 0, 0⟩ rest
      else utf8Go ⟨s.needed - 1, 0x80, 0xBF, s.acc * 0x40 + (b - 0x80)⟩ rest
    else repChar :: ((utf8Lead b).1 ++ utf8Go (utf8Lead b).2 rest)

/-- Embedding of Rust's `String::from_utf8_lossy`. -/
def utf8Lossy (bs : List Nat) : List Char := utf8Go ⟨0, 0, 0, 0⟩ bs

/-- Standard UTF-8 encoding of one scalar value (1 to 4 bytes). -/
def utf8EncodeChar (c : Char) : List Nat :=
  let n := c.toNat
  if n < 0x80 then [n]
  else if n < 0x800 then [0xC0 + n / 0x40, 0x80 + n % 0x40]
  else if n < 0x10000 then [0xE0 + n / 0x1000, 0x80 + n / 0x40 % 0x40, 0x80 + n % 0x40]
  else [0xF0 + n / 0x40000, 0x80 + n / 0x1000 % 0x40, 0x80 + n / 0x40 % 0x40, 0x80 + n % 0x40]

/-- UTF-8 encoding of a text, used to relate decoded responses back to the
bytes the backend sent. -/
def utf8Encode (s : List Char) : List Nat := (s.map utf8EncodeChar).flatten


/-- Strip one trailing carriage return, as Rust's `lines` does on a
`\n`-terminated line. -/
def stripCR (l : List Char) : List Char :=
  if l.getLast? = some '\r' then l.dropLast else l

/-- Embedding of Rust's `str::lines`: split on `'\n'`; every `\n`-terminated
piece loses one trailing `'\r'`; a final piece made empty by a terminating
newline is dropped, while a final unterminated piece is kept verbatim. -/
def rustLines (s : List Char) : List (List Char) :=
  let parts := s.splitOn '\n'
  match parts.getLast? with
  | some [] => parts.dropLast.map stripCR
  | some l => parts.dropLast.map stripCR ++ [l]
  | none => []

/-- Embedding of `Vec::join("\r\n")`. -/
def joinCRLF (ls : List (List Char)) : List Char := List.intercalate (str "\r\n") ls

/-- Rust's `char::is_whitespace` (the Unicode White_Space property). -/
def rustWs (c : Char) : Bool :=
  decide ((0x9 ≤ c.toNat ∧ c.toNat ≤ 0xD) ∨ c.toNat = 0x20 ∨ c.toNat = 0x85 ∨
    c.toNat = 0xA0 ∨ c.toNat = 0x1680 ∨ (0x2000 ≤ c.toNat ∧ c.toNat ≤ 0x200A) ∨
    c.toNat = 0x2028 ∨ c.toNat = 0x2029 ∨ c.toNat = 0x202F ∨ c.toNat = 0x205F ∨
    c.toNat = 0x3000)

/-- Embedding of Rust's `str::trim`: drop Unicode whitespace from both ends. -/
def rustTrim (s : List Char) : List Char :=
  ((s.dropWhile rustWs).reverse.dropWhile rustWs).reverse

/-- Fuelled loop behind `trimStartAll`; the fuel (the string length) bounds the
number of strips, each of which removes at least one character. -/
def stripAll (p : List Char) : Nat → List Char → List Char
  | 0, s => s
  | fuel + 1, s => if p ≠ [] ∧ p.isPrefixOf s then stripAll p fuel (s.drop p.length) else s

/-- Embedding of Rust's `str::trim_start_matches`: remove every leading
occurrence of the pattern, repeatedly. -/
def trimStartAll (p s : List Char) : List Char := stripAll p s.length s

/-- Embedding of Rust's `str::split_once`: split at the first occurrence of a
character, `none` when it does not occur. -/
def splitOnceChar (c : Char) : List Char → Option (List Char × List Char)
  | [] => none
  | x :: xs =>
    if x = c then some ([], xs)
    else (splitOnceChar c xs).map (fun p => (x :: p.1, p.2))

/-- Numeric value of a decimal digit string. -/
def digitsToNat (s : List Char) : Nat := s.foldl (fun a c => a * 10 + (c.toNat - 48)) 0

/-- Embedding of `str::parse::<u16>`: an optional leading `'+'`, then at least
one ASCII digit, and the value must fit in 16 bits; anything else is an error. -/
def parseU16 (s : List Char) : Option Nat :=
  let t := match s with
    | '+' :: r => r
    | _ => s
  if t ≠ [] ∧ t.all (fun c => c.isDigit) then
    if digitsToNat t ≤ 65535 then some (digitsToNat t) else none
  else none

/-- Position of the first space byte, as `iter().position(|&b| b == b' ')`. -/
def posSpace : List Nat → Option Nat
  | [] => none
  | b :: rest => if b = 32 then some 0 else (posSpace rest).map (· + 1)

/-- Embedding of `extract_path` (src/main.rs:77-92): the bytes between the
first space and the next space after it, decoded lossily and trimmed;
`"/"` when either space is missing. -/
def extract_path (buffer : List Nat) : List Char :=
  match posSpace buffer with
  | some index =>
    match posSpace (buffer.drop (index + 1)) with
    | some second => rustTrim (utf8Lossy ((buffer.drop (index + 1)).take second))
    | none => str "/"
  | none => str "/"


/-- The `static` section of a per-server configuration file. -/
structure StaticConfig where
  webroot : List Char
  index : List Char

/-- The `proxy` section of a per-server configuration file. -/
structure ProxyConfig where
  backend : List Char
  modify_host : Bool
  header_host : List Char
  modify_server : Bool

/-- The parts of a loaded `ServerConfig` the dispatcher consults. -/
structure ServerConfig where
  server_type : List Char
  static_config : Option StaticConfig
  proxy_config : Option ProxyConfig

/-- One access-log record as produced by `log_access` (the timestamp comes
from the ambient clock and carries no information about the inputs). -/
structure LogRecord where
  client : List Char
  path : List Char
  status : Nat
deriving DecidableEq

/-- Backend-address parsing of `handle_proxy_request` (src/main.rs:140-146):
strip `"http://"` prefixes, `split_once(':')` into host and port string, parse
the port with `unwrap_or(80)` (also used when no colon is present). -/
def parseBackend (backend : List Char) : List Char × Nat :=
  let url := trimStartAll (str "http://") backend
  match splitOnceChar ':' url with
  | some (h, p) => (h, (parseU16 p).getD 80)
  | none => (url, 80)

/-- One dotted-quad component of an IPv4 literal: one to three digits, no
leading zero, value at most 255 (Rust's `Ipv4Addr` parser). -/
def ipv4Octet (g : List Char) : Bool :=
  !g.isEmpty && g.all (fun c => c.isDigit) && decide (g.length ≤ 3) &&
    (decide (g.length = 1) || !(g.headD '0' = '0')) && decide (digitsToNat g ≤ 255)

/-- IPv4 literal: exactly four dot-separated octets. -/
def isIPv4 (h : List Char) : Bool :=
  decide ((h.splitOn '.').length = 4) && (h.splitOn '.').all ipv4Octet

/-- Characters allowed inside a bracketed IPv6 host. -/
def ipv6Char (c : Char) : Bool := c.isDigit || c.isAlpha || c == ':' || c == '.'

/-- Modelled approximation of `str::parse::<SocketAddr>` applied to
`host:port` where the port component is already a valid `u16` decimal: it
succeeds iff the host is an IPv4 dotted-quad literal or a bracketed IPv6
literal (approximated by a character-level well-formedness check).  DNS host
names are never resolved by `SocketAddr` parsing and fail. -/
def socketAddrOk (host : List Char) : Bool :=
  isIPv4 host ||
    (match host with
     | '[' :: rest =>
       !rest.isEmpty && decide (rest.getLast? = some ']') &&
         rest.dropLast.all ipv6Char && rest.dropLast.any (· == ':')
     | _ => false)

/-- The fixed `502 Bad Gateway` response of the proxy path. -/
def gateway502 : List Char := str "HTTP/1.1 502 Bad Gateway\r\n\r\n502 Bad Gateway"

/-- The per-line `Host` rewriting applied when `modify_host` is set
(src/main.rs:156-164). -/
def hostMap (hh : List Char) (l : List Char) : List Char :=
  if (str "Host:").isPrefixOf l then str "Host: " ++ hh else l

/-- The request text written to the backend (src/main.rs:154-169): with
`modify_host` set, every line beginning with `"Host:"` is replaced by
`"Host: " ++ header_host` and the lines are rejoined with CRLF; otherwise the
request is forwarded unmodified. -/
def forwardedRequest (cfg : ProxyConfig) (request : List Char) : List Char :=
  if cfg.modify_host then joinCRLF ((rustLines request).map (hostMap cfg.header_host))
  else request

/-- The trimmed value of the first response line beginning with `"Server:"`,
default `"unknown"` (src/main.rs:185-188).  `trim_start_matches` strips the
`"Server:"` pattern repeatedly. -/
def serverValue (r : List Char) : List Char :=
  match (rustLines r).find? (fun l => (str "Server:").isPrefixOf l) with
  | some l => rustTrim (trimStartAll (str "Server:") l)
  | none => str "unknown"

/-- The per-line `Server` rewriting applied when `modify_server` is set
(src/main.rs:194-201): every line beginning with `"Server:"` becomes the new
header built from `serverValue`. -/
def serverMap (r : List Char) (l : List Char) : List Char :=
  if (str "Server:").isPrefixOf l then
    str "Server: nextWeb(" ++ serverValue r ++ str ")/0.1.0"
  else l

/-- The `Server`-header rewriting of the backend response
(src/main.rs:183-204). -/
def rewriteServer (r : List Char) : List Char :=
  joinCRLF ((rustLines r).map (serverMap r))

/-- Oracle for one outbound proxy exchange: whether `connect_timeout`
succeeds, whether `write_all` succeeds, and what a successful single `read`
returns (`none` models a read error). -/
structure Net where
  connectOk : Bool
  writeOk : Bool
  readResult : Option (List Nat)

/-- Embedding of `handle_proxy_request` (src/main.rs:134-217).  The result is
`none` when the code panics (the `expect("Invalid backend address")` on a
backend whose host is not a socket-address literal); otherwise it carries the
request text written to the backend (`none` when no connection was made) and
the response string returned to the dispatcher.  The backend read buffer is
8192 bytes. -/
def handle_proxy_request (cfg : ProxyConfig) (request : List Char) (net : Net) :
    Option (Option (List Char) × List Char) :=
  let hp := parseBackend cfg.backend
  if socketAddrOk hp.1 then
    if net.connectOk then
      let mreq := forwardedRequest cfg request
      if net.writeOk then
        match net.readResult with
        | some bytes =>
          let response := utf8Lossy (bytes.take 8192)
          some (some mreq, if cfg.modify_server then rewriteServer response else response)
        | none => some (some mreq, gateway502)
      else some (some mreq, gateway502)
    else some (none, gateway502)
  else none

/-- Collapse runs of consecutive slashes, modelling POSIX pathname
resolution, under which `"w//f"` and `"w/f"` name the same file. -/
def collapseSlashes : List Char → List Char
  | [] => []
  | [c] => [c]
  | c :: d :: rest =>
    if c = '/' && d = '/' then collapseSlashes (d :: rest)
    else c :: collapseSlashes (d :: rest)

/-- Models `File::open` plus `read_to_string` against a filesystem oracle:
`none` is an open failure, `some none` an open success whose read fails
(e.g. non-UTF-8 contents), `some (some contents)` a successful read.  The
oracle is consulted on the slash-normalized path, reflecting that the
operating system resolves duplicate slashes to the same file. -/
def osOpen (fs : List Char → Option (Option (List Char))) (p : List Char) :
    Option (Option (List Char)) := fs (collapseSlashes p)

/-- Embedding of `handle_static_request` (src/main.rs:101-131). -/
def handle_static_request (fs : List Char → Option (Option (List Char)))
    (sc : StaticConfig) (path : List Char) : List Char :=
  let actual := if path = str "/" then sc.index else path
  let filePath := sc.webroot ++ str "/" ++ actual
  match osOpen fs filePath with
  | some (some contents) =>
    str "HTTP/1.1 200 OK\r\nServer: nextWeb/0.1.0\r\nContent-Type: text/html; charset=utf-8\r\n\r\n"
      ++ contents
  | some none => str "HTTP/1.1 500 Internal Server Error\r\n\r\n500 Internal Server Error"
  | none => str "HTTP/1.1 404 Not Found\r\n\r\n404 Not Found"

/-- Status classification of a response by its status-line prefix
(src/main.rs:253-265). -/
def statusOf (r : List Char) : Nat :=
  if (str "HTTP/1.1 200").isPrefixOf r then 200
  else if (str "HTTP/1.1 404").isPrefixOf r then 404
  else if (str "HTTP/1.1 500").isPrefixOf r then 500
  else if (str "HTTP/1.1 501").isPrefixOf r then 501
  else if (str "HTTP/1.1 502").isPrefixOf r then 502
  else 0

/-- The fixed 1024-byte read buffer of `handle_client`: the bytes delivered
by the single `read` call occupy its front, the rest keeps its zero
initialization. -/
def buffer1024 (s : List Nat) : List Nat :=
  s.take 1024 ++ List.replicate (1024 - (s.take 1024).length) 0

/-- The request text `handle_client` derives (src/main.rs:233): the lossy
decoding of the ENTIRE 1024-byte buffer, not just of the bytes read. -/
def requestText (s : List Nat) : List Char := utf8Lossy (buffer1024 s)

/-- `peer_addr` with its `"unknown"` fallback (src/main.rs:221-224). -/
def clientName (peer : Option (List Char)) : List Char := peer.getD (str "unknown")

/-- Embedding of `handle_client` (src/main.rs:220-269).  `peer` is the peer
address if available, `readRes` the outcome of the single socket read
(`none` = read error, `some s` = the bytes delivered).  The result is `none`
when dispatch panics; otherwise it carries the access-log records emitted
(in order) and the response written back, `none` when no response is
written. -/
def handle_client (peer : Option (List Char)) (readRes : Option (List Nat))
    (cfg : ServerConfig) (fs : List Char → Option (Option (List Char))) (net : Net) :
    Option (List LogRecord × Option (List Char)) :=
  let addr := clientName peer
  match readRes with
  | none => some ([⟨addr, str "-", 400⟩], none)
  | some s =>
    let request := requestText s
    let path := extract_path (buffer1024 s)
    let response? : Option (List Char) :=
      if cfg.server_type = str "static" then
        match cfg.static_config with
        | some sc => some (handle_static_request fs sc path)
        | none => some (str "HTTP/1.1 500 Internal Server Error\r\n\r\n500 Internal Server Error: Static configuration is missing")
      else if cfg.server_type = str "proxy" then
        match cfg.proxy_config with
        | some pc => (handle_proxy_request pc request net).map Prod.snd
        | none => some (str "HTTP/1.1 500 Internal Server Error\r\n\r\n500 Internal Server Error: Proxy configuration is missing")
      else some (str "HTTP/1.1 501 Not Implemented\r\n\r\n501 Not Implemented")
    match response? with
    | none => none
    | some response => some ([⟨addr, path, statusOf response⟩], some response)

/-- First occurrence of a pattern in a text: `some (before, after)` splits the
text around the first match. -/
def findSub (pat : List Char) : List Char → Option (List Char × List Char)
  | [] => if pat.isPrefixOf ([] : List Char) then some ([], []) else none
  | c :: rest =>
    if pat.isPrefixOf (c :: rest) then some ([], (c :: rest).drop pat.length)
    else (findSub pat rest).map (fun p => (c :: p.1, p.2))

/-- The body of an HTTP response rendered as a single string: everything after
the first blank line (CRLF CRLF); empty when there is none. -/
def httpBody (r : List Char) : List Char :=
  match findSub (str "\r\n\r\n") r with
  | some p => p.2
  | none => []

/-- A one-file filesystem oracle used to instantiate the static-responder
theorems on a concrete input. -/
def fsDemo : List Char → Option (Option (List Char)) :=
  fun p => if p = str "w/i.html" then some (some (str "hello")) else none


-- Concrete sanity checks of the embedded library functions and parsers.
example : utf8Lossy [0x48, 0x69] = str "Hi" := by decide
example : utf8Lossy [0xFF] = [repChar] := by decide
example : utf8Lossy [0xC3, 0xA9] = ['é'] := by decide
example : utf8Lossy [0xE2, 0x82, 0xAC] = ['€'] := by decide
example : utf8Lossy [0xC3] = [repChar] := by decide
example : utf8Lossy [0xE2, 0x82] = [repChar] := by decide
example : utf8Lossy [0xE0, 0x80, 0x41] = [repChar, repChar, 'A'] := by decide
example : utf8Lossy [0xED, 0xA0, 0x80] = [repChar, repChar, repChar] := by decide
example : utf8Encode ['é'] = [0xC3, 0xA9] := by decide
example : utf8Encode (str "Hi") = [0x48, 0x69] := by decide
example : utf8Lossy [0xF0, 0x9F, 0x92, 0x96] = [Char.ofNat 0x1F496] := by decide
example : rustLines (str "a\r\nb\nc\r\n") = [str "a", str "b", str "c"] := by decide
example : rustLines (str "abc\r") = [str "abc\r"] := by decide
example : rustLines (str "") = [] := by decide
example : rustLines (str "\n") = [[]] := by decide
example : rustLines (str "a\n\nb") = [str "a", [], str "b"] := by decide
example : joinCRLF [str "a", [], str "b"] = str "a\r\n\r\nb" := by decide
example : rustTrim (str "  ab c\t ") = str "ab c" := by decide
example : trimStartAll (str "http://") (str "http://http://x") = str "x" := by decide
example : trimStartAll (str "Server:") (str "Server: nginx ") = str " nginx " := by decide
example : splitOnceChar ':' (str "a:b:c") = some (str "a", str "b:c") := by decide
example : parseU16 (str "8080") = some 8080 := by decide
example : parseU16 (str "b:c") = none := by decide
example : parseU16 (str "99999") = none := by decide
example : parseU16 (str "+80") = some 80 := by decide
example : parseU16 (str "") = none := by decide
example : extract_path ((str "GET /index.html HTTP/1.1").map Char.toNat) = str "/index.html" := by decide
example : extract_path ((str "GETnospace").map Char.toNat) = str "/" := by decide
example : parseBackend (str "http://127.0.0.1:8080") = (str "127.0.0.1", 8080) := by decide
example : parseBackend (str "example.com") = (str "example.com", 80) := by decide
example : parseBackend (str "a:b:c") = (str "a", 80) := by decide
example : socketAddrOk (str "127.0.0.1") = true := by decide
example : socketAddrOk (str "256.0.0.1") = false := by decide
example : socketAddrOk (str "01.0.0.1") = false := by decide
example : socketAddrOk (str "example.com") = false := by decide
example : socketAddrOk (str "[::1]") = true := by decide
example : collapseSlashes (str "w//f") = str "w/f" := by decide
example : statusOf gateway502 = 502 := by decide

theorem utf8Lead_inv (b : Nat) : (utf8Lead b).2.needed = 0 ∨ 0 < (utf8Lead b).2.lo := by
  unfold utf8Lead
  split_ifs <;> simp

theorem utf8Go_zeros (s : Utf8State) (m : Nat) (h : s.needed = 0 ∨ 0 < s.lo) :
    utf8Go s (List.replicate m 0) =
      (if s.needed = 0 then [] else [repChar]) ++ List.replicate m (Char.ofNat 0) := by
  induction m generalizing s with
  | zero => simp [utf8Go]
  | succ m ih =>
    rw [List.replicate_succ]
    by_cases h0 : s.needed = 0
    · simp only [utf8Go, h0, if_pos, utf8Lead, if_pos (by omega : (0 : Nat) < 0x80)]
      rw [ih ⟨0, 0, 0, 0⟩ (Or.inl rfl)]
      simp [List.replicate_succ]
    · have hlo : 0 < s.lo := h.resolve_left h0
      simp only [utf8Go, if_neg h0, if_neg (by omega : ¬(s.lo ≤ 0 ∧ 0 ≤ s.hi)),
        utf8Lead, if_pos (by omega : (0 : Nat) < 0x80)]
      rw [ih ⟨0, 0, 0, 0⟩ (Or.inl rfl)]
      simp [List.replicate_succ]

theorem utf8Go_append_zeros (xs : List Nat) (s : Utf8State) (m : Nat)
    (h : s.needed = 0 ∨ 0 < s.lo) :
    utf8Go s (xs ++ List.replicate m 0) = utf8Go s xs ++ List.replicate m (Char.ofNat 0) := by
  induction xs generalizing s with
  | nil => simpa [utf8Go] using utf8Go_zeros s m h
  | cons b xs ih =>
    by_cases h0 : s.needed = 0
    · simp only [List.cons_append, utf8Go, if_pos h0, List.append_eq]
      rw [ih _ (utf8Lead_inv b), List.append_assoc]
    · by_cases hc : s.lo ≤ b ∧ b ≤ s.hi
      · by_cases h1 : s.needed = 1
        · simp only [List.cons_append, utf8Go, if_neg h0, if_pos hc, if_pos h1,
            List.append_eq]
          rw [ih ⟨0, 0, 0, 0⟩ (Or.inl rfl)]
        · simp only [List.cons_append, utf8Go, if_neg h0, if_pos hc, if_neg h1,
            List.append_eq]
          exact ih ⟨s.needed - 1, 0x80, 0xBF, s.acc * 0x40 + (b - 0x80)⟩
            (Or.inr (by norm_num))
      · simp only [List.cons_append, utf8Go, if_neg h0, if_neg hc, List.append_eq]
        rw [ih _ (utf8Lead_inv b)]
        simp

theorem utf8Lossy_zeros (m : Nat) :
    utf8Lossy (List.replicate m 0) = List.replicate m (Char.ofNat 0) := by
  simpa using utf8Go_zeros ⟨0, 0, 0, 0⟩ m (Or.inl rfl)

theorem utf8Lossy_append_zeros (xs : List Nat) (m : Nat) :
    utf8Lossy (xs ++ List.replicate m 0) =
      utf8Lossy xs ++ List.replicate m (Char.ofNat 0) :=
  utf8Go_append_zeros xs ⟨0, 0, 0, 0⟩ m (Or.inl rfl)

theorem utf8Go_zero_cons (b : Nat) (bs : List Nat) :
    utf8Go ⟨0, 0, 0, 0⟩ (b :: bs) = (utf8Lead b).1 ++ utf8Go (utf8Lead b).2 bs := by
  simp [utf8Go]

theorem utf8Go_cont_last (lo hi acc b : Nat) (bs : List Nat) (hb : lo ≤ b ∧ b ≤ hi) :
    utf8Go ⟨1, lo, hi, acc⟩ (b :: bs) =
      Char.ofNat (acc * 0x40 + (b - 0x80)) :: utf8Go ⟨0, 0, 0, 0⟩ bs := by
  simp [utf8Go, hb]

theorem utf8Go_cont_mid (k lo hi acc b : Nat) (bs : List Nat) (hk : k ≠ 0) (hk1 : k ≠ 1)
    (hb : lo ≤ b ∧ b ≤ hi) :
    utf8Go ⟨k, lo, hi, acc⟩ (b :: bs) =
      utf8Go ⟨k - 1, 0x80, 0xBF, acc * 0x40 + (b - 0x80)⟩ bs := by
  simp [utf8Go, hk, hk1, hb]

theorem utf8Lead_ascii (b : Nat) (h : b < 0x80) :
    utf8Lead b = ([Char.ofNat b], ⟨0, 0, 0, 0⟩) := by
  simp [utf8Lead, h]

theorem utf8Lead_two (b : Nat) (h1 : 0xC2 ≤ b) (h2 : b < 0xE0) :
    utf8Lead b = ([], ⟨1, 0x80, 0xBF, b - 0xC0⟩) := by
  unfold utf8Lead
  rw [if_neg (by omega), if_neg (by omega), if_pos h2]

theorem utf8Lead_three (b : Nat) (h1 : 0xE0 ≤ b) (h2 : b < 0xF0) :
    utf8Lead b = ([], ⟨2, if b = 0xE0 then 0xA0 else 0x80,
      if b = 0xED then 0x9F else 0xBF, b - 0xE0⟩) := by
  unfold utf8Lead
  rw [if_neg (by omega), if_neg (by omega), if_neg (by omega), if_pos h2]

theorem utf8Lead_four (b : Nat) (h1 : 0xF0 ≤ b) (h2 : b < 0xF5) :
    utf8Lead b = ([], ⟨3, if b = 0xF0 then 0x90 else 0x80,
      if b = 0xF4 then 0x8F else 0xBF, b - 0xF0⟩) := by
  unfold utf8Lead
  rw [if_neg (by omega), if_neg (by omega), if_neg (by omega), if_neg (by omega),
    if_pos h2]

theorem utf8Go_encodeChar (c : Char) (bs : List Nat) :
    utf8Go ⟨0, 0, 0, 0⟩ (utf8EncodeChar c ++ bs) = c :: utf8Go ⟨0, 0, 0, 0⟩ bs := by
  have hv : c.toNat < 0xD800 ∨ (0xDFFF < c.toNat ∧ c.toNat < 0x110000) := c.valid
  have hofn : Char.ofNat c.toNat = c := Char.ofNat_toNat c
  simp only [utf8EncodeChar]
  generalize hg : c.toNat = n at hv hofn ⊢
  by_cases h1 : n < 0x80
  · rw [if_pos h1, List.cons_append, List.nil_append, utf8Go_zero_cons,
      utf8Lead_ascii n h1, hofn]
    rfl
  · by_cases h2 : n < 0x800
    · rw [if_neg h1, if_pos h2]
      simp only [List.cons_append, List.nil_append]
      rw [utf8Go_zero_cons, utf8Lead_two _ (by omega) (by omega)]
      simp only [List.nil_append]
      rw [utf8Go_cont_last _ _ _ _ _ ⟨by omega, by omega⟩]
      rw [show (0xC0 + n / 0x40 - 0xC0) * 0x40 + (0x80 + n % 0x40 - 0x80) = n by omega,
        hofn]
    · by_cases h3 : n < 0x10000
      · rw [if_neg h1, if_neg h2, if_pos h3]
        simp only [List.cons_append, List.nil_append]
        rw [utf8Go_zero_cons, utf8Lead_three _ (by omega) (by omega)]
        simp only [List.nil_append]
        rw [utf8Go_cont_mid _ _ _ _ _ _ (by omega) (by omega)
          (by constructor <;> split <;> omega)]
        rw [utf8Go_cont_last _ _ _ _ _ ⟨by omega, by omega⟩]
        rw [show ((0xE0 + n / 0x1000 - 0xE0) * 0x40 + (0x80 + n / 0x40 % 0x40 - 0x80)) *
            0x40 + (0x80 + n % 0x40 - 0x80) = n by omega, hofn]
      · rw [if_neg h1, if_neg h2, if_neg h3]
        simp only [List.cons_append, List.nil_append]
        rw [utf8Go_zero_cons, utf8Lead_four _ (by omega) (by omega)]
        simp only [List.nil_append]
        rw [utf8Go_cont_mid _ _ _ _ _ _ (by omega) (by omega)
          (by constructor <;> split <;> omega)]
        rw [utf8Go_cont_mid _ _ _ _ _ _ (by omega) (by omega)
          (by constructor <;> omega)]
        rw [utf8Go_cont_last _ _ _ _ _ ⟨by omega, by omega⟩]
        rw [show (((0xF0 + n / 0x40000 - 0xF0) * 0x40 + (0x80 + n / 0x1000 % 0x40 - 0x80)) *
            0x40 + (0x80 + n / 0x40 % 0x40 - 0x80)) * 0x40 + (0x80 + n % 0x40 - 0x80) = n by
            omega, hofn]

theorem utf8Lossy_encode (s : List Char) : utf8Lossy (utf8Encode s) = s := by
  induction s with
  | nil => rfl
  | cons c cs ih =>
    show utf8Go ⟨0, 0, 0, 0⟩ ((utf8EncodeChar c :: cs.map utf8EncodeChar).flatten) = c :: cs
    rw [List.flatten_cons, utf8Go_encodeChar]
    exact congrArg (c :: ·) ih

theorem isPrefixOf_append_self (p t : List Char) : p.isPrefixOf (p ++ t) = true := by
  rw [List.isPrefixOf_iff_prefix]
  exact List.prefix_append p t

theorem isPrefixOf_false_append (p s t : List Char) (hlen : p.length ≤ s.length)
    (h : p.isPrefixOf s = false) : p.isPrefixOf (s ++ t) = false := by
  cases hpt : p.isPrefixOf (s ++ t) with
  | false => rfl
  | true =>
    exfalso
    have h1 : p <+: s ++ t := List.isPrefixOf_iff_prefix.mp hpt
    have h2 : p = (s ++ t).take p.length := List.prefix_iff_eq_take.mp h1
    rw [List.take_append_eq_append_take, Nat.sub_eq_zero_of_le hlen, List.take_zero,
      List.append_nil] at h2
    have h3 : p <+: s := h2 ▸ List.take_prefix p.length s
    rw [List.isPrefixOf_iff_prefix.mpr h3] at h
    exact Bool.noConfusion h

theorem isPrefixOf_nil_eq (p : List Char) (h : p.isPrefixOf ([] : List Char) = true) :
    p = [] := by
  cases p with
  | nil => rfl
  | cons c cs => simp [List.isPrefixOf] at h

theorem findSub_structure (pat : List Char) :
    ∀ s b a, findSub pat s = some (b, a) → s = b ++ pat ++ a := by
  intro s
  induction s with
  | nil =>
    intro b a h
    unfold findSub at h
    split at h
    · rename_i hpretrue
      have heq := Option.some.inj h
      simp only [Prod.mk.injEq] at heq
      obtain ⟨hb, ha⟩ := heq
      have hp : pat = [] := isPrefixOf_nil_eq pat hpretrue
      simp [← hb, ← ha, hp]
    · exact Option.noConfusion h
  | cons c rest ih =>
    intro b a h
    unfold findSub at h
    split at h
    · rename_i hpretrue
      have heq := Option.some.inj h
      simp only [Prod.mk.injEq] at heq
      obtain ⟨hb, ha⟩ := heq
      have hpre : pat <+: c :: rest := List.isPrefixOf_iff_prefix.mp hpretrue
      obtain ⟨t, ht⟩ := hpre
      rw [← hb, ← ha, ← ht, List.drop_left]
      simp
    · rw [Option.map_eq_some'] at h
      obtain ⟨⟨b', a'⟩, hfs, heq⟩ := h
      simp only [Prod.mk.injEq] at heq
      obtain ⟨hb, ha⟩ := heq
      rw [← hb, ← ha]
      have := ih b' a' hfs
      simp [this]

theorem findSub_append_of_end (pat : List Char) (hp : pat ≠ []) :
    ∀ hdr tail b, findSub pat hdr = some (b, []) →
      findSub pat (hdr ++ tail) = some (b, tail) := by
  intro hdr
  induction hdr with
  | nil =>
    intro tail b h
    cases pat with
    | nil => exact absurd rfl hp
    | cons p ps => simp [findSub, List.isPrefixOf] at h
  | cons c rest ih =>
    intro tail b h
    unfold findSub at h
    split at h
    · rename_i hpretrue
      have heq := Option.some.inj h
      simp only [Prod.mk.injEq] at heq
      obtain ⟨hb, ha⟩ := heq
      have hpre : pat <+: c :: rest := List.isPrefixOf_iff_prefix.mp hpretrue
      have hlen1 : pat.length ≤ (c :: rest).length := hpre.length_le
      have hlen2 : (c :: rest).length ≤ pat.length := List.drop_eq_nil_iff.mp ha
      have hlen : pat.length = (c :: rest).length := Nat.le_antisymm hlen1 hlen2
      have hpre2 : pat.isPrefixOf (c :: (rest ++ tail)) = true := by
        rw [List.isPrefixOf_iff_prefix]
        exact List.IsPrefix.trans hpre (List.prefix_append (c :: rest) tail)
      show findSub pat (c :: (rest ++ tail)) = some (b, tail)
      unfold findSub
      rw [if_pos hpre2, ← hb]
      have hdrop : (c :: (rest ++ tail)).drop pat.length = tail := by
        rw [show c :: (rest ++ tail) = (c :: rest) ++ tail from rfl]
        exact List.drop_left' hlen.symm
      rw [hdrop]
    · rename_i hprefalse
      rw [Option.map_eq_some'] at h
      obtain ⟨⟨b', a'⟩, hfs, heq⟩ := h
      simp only [Prod.mk.injEq] at heq
      obtain ⟨hb, ha⟩ := heq
      rw [ha] at hfs
      have hstruct := findSub_structure pat rest b' [] hfs
      have hlen : pat.length ≤ rest.length := by
        rw [hstruct]
        simp
      have hfalse : pat.isPrefixOf (c :: rest) = false :=
        Bool.eq_false_iff.mpr (fun hx => hprefalse hx)
      have hext : pat.isPrefixOf (c :: (rest ++ tail)) = false := by
        have hx := isPrefixOf_false_append pat (c :: rest) tail
          (by simp only [List.length_cons]; omega) hfalse
        simpa using hx
      show findSub pat (c :: (rest ++ tail)) = some (b, tail)
      unfold findSub
      rw [if_neg (by simp [hext]), ih tail b' hfs, Option.map_some', ← hb]
theorem httpBody_of_header (hdr tail b : List Char)
    (h : findSub (str "\r\n\r\n") hdr = some (b, [])) :
    httpBody (hdr ++ tail) = tail := by
  unfold httpBody
  rw [findSub_append_of_end (str "\r\n\r\n") (by decide) hdr tail b h]

theorem splitOnceChar_of_decomp (c : Char) :
    ∀ pre suf, c ∉ pre → splitOnceChar c (pre ++ c :: suf) = some (pre, suf) := by
  intro pre
  induction pre with
  | nil => intro suf _; simp [splitOnceChar]
  | cons x xs ih =>
    intro suf hmem
    have hx : ¬ x = c := fun h => hmem (h ▸ List.mem_cons_self x xs)
    have hxs : c ∉ xs := fun hm => hmem (List.mem_cons_of_mem x hm)
    simp only [List.cons_append, splitOnceChar, if_neg hx, List.append_eq, ih suf hxs,
      Option.map_some']

theorem splitOnceChar_of_not_mem (c : Char) :
    ∀ s, c ∉ s → splitOnceChar c s = none := by
  intro s
  induction s with
  | nil => intro _; rfl
  | cons x xs ih =>
    intro hmem
    have hx : ¬ x = c := fun h => hmem (h ▸ List.mem_cons_self x xs)
    simp only [splitOnceChar, if_neg hx, ih (fun hm => hmem (List.mem_cons_of_mem x hm)),
      Option.map_none']

theorem posSpace_append (a : List Nat) (rest : List Nat) (ha : 32 ∉ a) :
    posSpace (a ++ 32 :: rest) = some a.length := by
  induction a with
  | nil => simp [posSpace]
  | cons x xs ih =>
    have hx : ¬ x = 32 := fun h => ha (h ▸ List.mem_cons_self x xs)
    simp only [List.cons_append, posSpace, if_neg hx, List.append_eq,
      ih (fun hm => ha (List.mem_cons_of_mem x hm)), Option.map_some', List.length_cons]

theorem posSpace_of_not_mem : ∀ l : List Nat, 32 ∉ l → posSpace l = none := by
  intro l
  induction l with
  | nil => intro _; rfl
  | cons x xs ih =>
    intro hmem
    have hx : ¬ x = 32 := fun h => hmem (h ▸ List.mem_cons_self x xs)
    simp only [posSpace, if_neg hx, ih (fun hm => hmem (List.mem_cons_of_mem x hm)),
      Option.map_none']

theorem posSpace_decomp : ∀ (l : List Nat) (i : Nat), posSpace l = some i →
    ∃ a rest, l = a ++ 32 :: rest ∧ 32 ∉ a ∧ a.length = i := by
  intro l
  induction l with
  | nil => intro i h; exact Option.noConfusion h
  | cons x xs ih =>
    intro i h
    by_cases hx : x = 32
    · refine ⟨[], xs, by rw [hx]; rfl, by simp, ?_⟩
      simp only [posSpace, if_pos hx] at h
      simpa using Option.some.inj h
    · simp only [posSpace, if_neg hx, Option.map_eq_some'] at h
      obtain ⟨j, hj, hji⟩ := h
      obtain ⟨a, rest, hl, hna, hlen⟩ := ih j hj
      refine ⟨x :: a, rest, by rw [hl]; rfl, ?_, by simp [hlen, hji]⟩
      intro hm
      rcases List.mem_cons.mp hm with h32 | h32
      · exact hx h32.symm
      · exact hna h32

theorem collapseSlashes_double (v : List Char) :
    ∀ u : List Char, collapseSlashes (u ++ '/' :: '/' :: v) =
      collapseSlashes (u ++ '/' :: v) := by
  intro u
  induction u with
  | nil => simp [collapseSlashes]
  | cons x u ih =>
    cases u with
    | nil =>
      by_cases hx : x = '/' <;> simp [collapseSlashes, hx]
    | cons y u' =>
      simp only [List.cons_append, collapseSlashes, List.append_eq]
      simp only [List.cons_append] at ih
      rw [ih]

/-- C1: the claim asserts the backend is split on the LAST colon; on the code
(`split_once(':')`) a backend with more than one colon is split on the FIRST
colon: for `"a:b:c"` the host is `"a"`, not `"a:b"` as the claim requires. -/
theorem parseBackend_last_colon_cex :
    parseBackend (str "a:b:c") = (str "a", 80) ∧
      (parseBackend (str "a:b:c")).1 ≠ str "a:b" := by
  decide

/-- C1 (amended): after repeatedly stripping `"http://"` prefixes, the backend
is split on the FIRST colon into host and port, the port string parsed with
default 80 when absent or unparsable. -/
theorem parseBackend_first_colon :
    (∀ backend pre suf : List Char,
      trimStartAll (str "http://") backend = pre ++ ':' :: suf → ':' ∉ pre →
        parseBackend backend = (pre, (parseU16 suf).getD 80)) ∧
    (∀ backend : List Char, ':' ∉ trimStartAll (str "http://") backend →
      parseBackend backend = (trimStartAll (str "http://") backend, 80)) := by
  constructor
  · intro backend pre suf hdec hpre
    simp only [parseBackend, hdec, splitOnceChar_of_decomp ':' pre suf hpre]
  · intro backend hmem
    simp only [parseBackend, splitOnceChar_of_not_mem ':' _ hmem]

/-- C1 witness: the amended theorem applied to the backend `"a:b:c"`. -/
theorem parseBackend_first_colon_wit :
    trimStartAll (str "http://") (str "a:b:c") = str "a" ++ ':' :: str "b:c" ∧
    ':' ∉ str "a" ∧
    parseBackend (str "a:b:c") = (str "a", (parseU16 (str "b:c")).getD 80) :=
  ⟨by decide, by decide,
    parseBackend_first_colon.1 (str "a:b:c") (str "a") (str "b:c") (by decide) (by decide)⟩

/-- C2: the claim asserts the proxy responder totally returns a response even
for an unparsable backend address; on the code a backend host that is not a
socket-address literal (here the DNS name `"backend.local"`) makes
`expect("Invalid backend address")` panic, aborting the thread — modelled as
the `none` result — instead of yielding `502 Bad Gateway`. -/
theorem proxy_panic_cex :
    handle_proxy_request ⟨str "backend.local:80", false, [], false⟩ []
      ⟨true, true, some []⟩ = none := by
  decide

/-- C2 (amended): for every proxy configuration whose backend parses as a
socket address, every request text and every network behaviour, the proxy
responder returns a response, and a connection failure or timeout yields the
`502 Bad Gateway` response. -/
theorem proxy_total_on_parseable_backend (cfg : ProxyConfig) (request : List Char)
    (net : Net) (h : socketAddrOk (parseBackend cfg.backend).1 = true) :
    (∃ w r, handle_proxy_request cfg request net = some (w, r)) ∧
    (net.connectOk = false →
      handle_proxy_request cfg request net = some (none, gateway502)) := by
  constructor
  · obtain ⟨co, wo, rr⟩ := net
    cases co
    · exact ⟨none, gateway502, by simp [handle_proxy_request, h]⟩
    · cases wo
      · exact ⟨some (forwardedRequest cfg request), gateway502,
          by simp [handle_proxy_request, h]⟩
      · rcases rr with _ | bytes
        · exact ⟨some (forwardedRequest cfg request), gateway502,
            by simp [handle_proxy_request, h]⟩
        · exact ⟨some (forwardedRequest cfg request),
            if cfg.modify_server then rewriteServer (utf8Lossy (bytes.take 8192))
            else utf8Lossy (bytes.take 8192),
            by simp [handle_proxy_request, h]⟩
  · intro hcf
    simp [handle_proxy_request, h, hcf]

/-- C2 witness: the amended theorem applied to backend `"127.0.0.1:8080"` and
a network on which the connection fails. -/
theorem proxy_total_on_parseable_backend_wit :
    socketAddrOk (parseBackend (str "127.0.0.1:8080")).1 = true ∧
    handle_proxy_request ⟨str "127.0.0.1:8080", false, [], false⟩ []
      ⟨false, true, none⟩ = some (none, gateway502) :=
  ⟨by decide,
    (proxy_total_on_parseable_backend ⟨str "127.0.0.1:8080", false, [], false⟩ []
      ⟨false, true, none⟩ (by decide)).2 rfl⟩

/-- C3: the claim asserts only the FIRST `"Server:"` line is replaced and any
subsequent one passes through unchanged; on the code EVERY line beginning
with `"Server:"` is replaced by the header built from the first line's value:
relaying a backend response with two `Server:` lines rewrites both. -/
theorem rewriteServer_all_lines_cex :
    handle_proxy_request ⟨str "127.0.0.1:80", false, [], true⟩ []
      ⟨true, true, some (utf8Encode (str "HTTP/1.1 200 OK\r\nServer: a\r\nServer: b"))⟩ =
      some (some [],
        str "HTTP/1.1 200 OK\r\nServer: nextWeb(a)/0.1.0\r\nServer: nextWeb(a)/0.1.0") ∧
    str "HTTP/1.1 200 OK\r\nServer: nextWeb(a)/0.1.0\r\nServer: nextWeb(a)/0.1.0" ≠
      str "HTTP/1.1 200 OK\r\nServer: nextWeb(a)/0.1.0\r\nServer: b" := by
  decide

/-- C3 (amended): when `modify_server` is set, EVERY backend-response line
beginning with `"Server:"` is replaced by
`"Server: nextWeb(" ++ v ++ ")/0.1.0"` where `v` is the trimmed value of the
FIRST such line (default `"unknown"`); every other line passes through
unchanged and the lines are rejoined with CRLF. -/
theorem rewriteServer_replaces_every_server_line (r : List Char) :
    rewriteServer r = joinCRLF ((rustLines r).map (serverMap r)) ∧
    (∀ l ∈ rustLines r, (str "Server:").isPrefixOf l = false → serverMap r l = l) ∧
    (∀ l ∈ rustLines r, (str "Server:").isPrefixOf l = true →
      serverMap r l = str "Server: nextWeb(" ++ serverValue r ++ str ")/0.1.0") := by
  refine ⟨rfl, ?_, ?_⟩
  · intro l _ hl
    simp [serverMap, hl]
  · intro l _ hl
    simp [serverMap, hl]

/-- C3 witness: the amended theorem applied to a response whose SECOND
`Server:` line is also rewritten. -/
theorem rewriteServer_replaces_every_server_line_wit :
    str "Server: y" ∈ rustLines (str "A\r\nServer: x\r\nServer: y") ∧
    (str "Server:").isPrefixOf (str "Server: y") = true ∧
    serverMap (str "A\r\nServer: x\r\nServer: y") (str "Server: y") =
      str "Server: nextWeb(" ++ serverValue (str "A\r\nServer: x\r\nServer: y") ++
        str ")/0.1.0" :=
  ⟨by decide, by decide,
    (rewriteServer_replaces_every_server_line (str "A\r\nServer: x\r\nServer: y")).2.2
      (str "Server: y") (by decide) (by decide)⟩

/-- C4: the claim asserts the bytes read from the backend are returned
exactly; on the code the bytes pass through `String::from_utf8_lossy`, so a
non-UTF-8 byte (here `0xFF`) is replaced by U+FFFD and the relayed response
does not consist of the bytes read. -/
theorem proxy_relay_lossy_cex :
    handle_proxy_request ⟨str "127.0.0.1:80", false, [], false⟩ []
      ⟨true, true, some [0xFF]⟩ = some (some [], [repChar]) ∧
    utf8Encode [repChar] ≠ [0xFF] := by
  decide

/-- C4 (amended): when `modify_server` is unset, the proxy relays the lossy
UTF-8 decoding of the bytes read; in particular every byte sequence that is
valid UTF-8 (within the 8192-byte read buffer) is relayed exactly. -/
theorem proxy_relay_valid_utf8_exact (cfg : ProxyConfig) (request : List Char)
    (net : Net) (cs : List Char)
    (hms : cfg.modify_server = false)
    (hok : socketAddrOk (parseBackend cfg.backend).1 = true)
    (hco : net.connectOk = true) (hwo : net.writeOk = true)
    (hrr : net.readResult = some (utf8Encode cs))
    (hlen : (utf8Encode cs).length ≤ 8192) :
    handle_proxy_request cfg request net =
      some (some (forwardedRequest cfg request), cs) := by
  simp [handle_proxy_request, hok, hco, hwo, hrr, hms,
    List.take_of_length_le hlen, utf8Lossy_encode]

/-- C4 witness: the amended theorem applied to the backend response "OK". -/
theorem proxy_relay_valid_utf8_exact_wit :
    (utf8Encode (str "OK")).length ≤ 8192 ∧
    socketAddrOk (parseBackend (str "127.0.0.1:80")).1 = true ∧
    handle_proxy_request ⟨str "127.0.0.1:80", false, [], false⟩ []
      ⟨true, true, some (utf8Encode (str "OK"))⟩ =
      some (some (forwardedRequest ⟨str "127.0.0.1:80", false, [], false⟩ []), str "OK") :=
  ⟨by decide, by decide,
    proxy_relay_valid_utf8_exact ⟨str "127.0.0.1:80", false, [], false⟩ []
      ⟨true, true, some (utf8Encode (str "OK"))⟩ (str "OK") rfl (by decide) rfl rfl rfl
      (by decide)⟩

/-- C5: when `modify_host` is set with `header_host = "example.com"`, every
request line beginning with `"Host:"` is forwarded as `"Host: example.com"`,
every other line is forwarded unchanged, and the lines are rejoined with
CRLF; when `modify_host` is unset the request text is forwarded unmodified. -/
theorem host_rewrite_spec (cfg : ProxyConfig) (request : List Char) :
    (cfg.modify_host = true → cfg.header_host = str "example.com" →
      forwardedRequest cfg request =
        joinCRLF ((rustLines request).map (hostMap (str "example.com"))) ∧
      (∀ l ∈ rustLines request, (str "Host:").isPrefixOf l = true →
        hostMap (str "example.com") l = str "Host: example.com") ∧
      (∀ l ∈ rustLines request, (str "Host:").isPrefixOf l = false →
        hostMap (str "example.com") l = l)) ∧
    (cfg.modify_host = false → forwardedRequest cfg request = request) := by
  constructor
  · intro hmh hhh
    refine ⟨by simp [forwardedRequest, hmh, hhh], ?_, ?_⟩
    · intro l _ hl
      simp only [hostMap, hl, if_true]
      decide
    · intro l _ hl
      simp [hostMap, hl]
  · intro hmh
    simp [forwardedRequest, hmh]

/-- C5 witness: the theorem applied to a request carrying
`"Host: original.com"`. -/
theorem host_rewrite_spec_wit :
    forwardedRequest ⟨str "10.0.0.1:80", true, str "example.com", false⟩
        (str "GET / HTTP/1.1\r\nHost: original.com\r\n\r\n") =
      joinCRLF ((rustLines (str "GET / HTTP/1.1\r\nHost: original.com\r\n\r\n")).map
        (hostMap (str "example.com"))) :=
  ((host_rewrite_spec ⟨str "10.0.0.1:80", true, str "example.com", false⟩
    (str "GET / HTTP/1.1\r\nHost: original.com\r\n\r\n")).1 rfl rfl).1

/-- C7: for a buffer with at least two spaces (decomposed around the first
two space bytes), `extract_path` returns exactly the bytes between them,
lossily decoded and trimmed; with fewer than two spaces it returns `"/"`. -/
theorem extract_path_spec :
    (∀ a b c : List Nat, 32 ∉ a → 32 ∉ b →
      extract_path (a ++ [32] ++ b ++ [32] ++ c) = rustTrim (utf8Lossy b)) ∧
    (∀ buf : List Nat, buf.countP (fun x => x == 32) < 2 →
      extract_path buf = str "/") := by
  constructor
  · intro a b c ha hb
    have h1 : posSpace (a ++ [32] ++ b ++ [32] ++ c) = some a.length := by
      rw [show a ++ [32] ++ b ++ [32] ++ c = a ++ 32 :: (b ++ [32] ++ c) by simp]
      exact posSpace_append a _ ha
    have h2 : (a ++ [32] ++ b ++ [32] ++ c).drop (a.length + 1) = b ++ [32] ++ c := by
      rw [show a ++ [32] ++ b ++ [32] ++ c = (a ++ [32]) ++ (b ++ [32] ++ c) by simp]
      exact List.drop_left' (by simp)
    have h3 : posSpace (b ++ [32] ++ c) = some b.length := by
      rw [show b ++ [32] ++ c = b ++ 32 :: c by simp]
      exact posSpace_append b c hb
    have h4 : (b ++ [32] ++ c).take b.length = b := by
      rw [show b ++ [32] ++ c = b ++ ([32] ++ c) by simp]
      exact List.take_left' rfl
    simp only [extract_path, h1, h2, h3, h4]
  · intro buf hcount
    cases h1 : posSpace buf with
    | none => simp only [extract_path, h1]
    | some i =>
      obtain ⟨a, rest, hbuf, hna, hlen⟩ := posSpace_decomp buf i h1
      have hdrop : buf.drop (i + 1) = rest := by
        rw [hbuf, ← hlen, show a ++ 32 :: rest = (a ++ [32]) ++ rest by simp]
        exact List.drop_left' (by simp)
      have hca : a.countP (fun x => x == 32) = 0 :=
        List.countP_eq_zero.mpr (fun x hx hbeq => hna (by
          have hx32 : x = 32 := by simpa using hbeq
          exact hx32 ▸ hx))
      have hcr : rest.countP (fun x => x == 32) = 0 := by
        rw [hbuf] at hcount
        simp [List.countP_append, List.countP_cons, hca] at hcount
        omega
      have hnr : 32 ∉ rest := by
        intro hm
        have := List.countP_eq_zero.mp hcr 32 hm
        simp at this
      simp only [extract_path, h1, hdrop, posSpace_of_not_mem rest hnr]

/-- C7 witness: the theorem applied to the buffer `"G /x H"`. -/
theorem extract_path_spec_wit :
    32 ∉ [71] ∧ 32 ∉ [47, 120] ∧
    extract_path ([71] ++ [32] ++ [47, 120] ++ [32] ++ [72]) =
      rustTrim (utf8Lossy [47, 120]) :=
  ⟨by decide, by decide, extract_path_spec.1 [71] [47, 120] [72] (by decide) (by decide)⟩

/-- C8: requesting path `"/"` yields the same response as requesting
`"/" ++ index`: the former resolves `webroot ++ "/" ++ index`, the latter
`webroot ++ "//" ++ index`, and POSIX path resolution (modelled in `osOpen`)
treats the two as the same file. -/
theorem static_index_alias (fs : List Char → Option (Option (List Char)))
    (sc : StaticConfig) :
    handle_static_request fs sc (str "/") =
      handle_static_request fs sc (str "/" ++ sc.index) := by
  obtain ⟨W, I⟩ := sc
  cases I with
  | nil => rfl
  | cons c I' =>
    have hslash : str "/" = ['/'] := rfl
    have hne : ¬ (str "/" ++ (c :: I') = str "/") := by
      intro h
      have := congrArg List.length h
      simp [hslash] at this
    unfold handle_static_request
    rw [if_pos (rfl : str "/" = str "/"), if_neg hne]
    dsimp only
    have hfs : osOpen fs (W ++ str "/" ++ (str "/" ++ (c :: I'))) =
        osOpen fs (W ++ str "/" ++ (c :: I')) := by
      unfold osOpen
      congr 1
      rw [show W ++ str "/" ++ (str "/" ++ (c :: I')) = W ++ '/' :: '/' :: (c :: I') by
          simp [hslash],
        show W ++ str "/" ++ (c :: I') = W ++ '/' :: (c :: I') by simp [hslash]]
      exact collapseSlashes_double (c :: I') W
    rw [hfs]


/-- C6: a successful open and read of the resolved file yields a response
whose status line starts with `"HTTP/1.1 200"`, whose headers include
`"Server: nextWeb/0.1.0"` and `"Content-Type: text/html; charset=utf-8"`,
and whose body (after the first blank line) is exactly the file contents; an
open failure yields the 404 response with body `"404 Not Found"`; an open
success whose read fails yields the 500 response. -/
theorem static_response_spec (fs : List Char → Option (Option (List Char)))
    (sc : StaticConfig) (path : List Char) :
    (∀ contents, osOpen fs (sc.webroot ++ str "/" ++
        (if path = str "/" then sc.index else path)) = some (some contents) →
      (str "HTTP/1.1 200").isPrefixOf (handle_static_request fs sc path) = true ∧
      (str "\r\nServer: nextWeb/0.1.0\r\n") <:+: handle_static_request fs sc path ∧
      (str "\r\nContent-Type: text/html; charset=utf-8\r\n") <:+:
        handle_static_request fs sc path ∧
      httpBody (handle_static_request fs sc path) = contents) ∧
    (osOpen fs (sc.webroot ++ str "/" ++
        (if path = str "/" then sc.index else path)) = none →
      handle_static_request fs sc path =
        str "HTTP/1.1 404 Not Found\r\n\r\n404 Not Found" ∧
      httpBody (handle_static_request fs sc path) = str "404 Not Found") ∧
    (osOpen fs (sc.webroot ++ str "/" ++
        (if path = str "/" then sc.index else path)) = some none →
      handle_static_request fs sc path =
        str "HTTP/1.1 500 Internal Server Error\r\n\r\n500 Internal Server Error") := by
  refine ⟨?_, ?_, ?_⟩
  · intro contents h
    have hr : handle_static_request fs sc path =
        str "HTTP/1.1 200 OK\r\nServer: nextWeb/0.1.0\r\nContent-Type: text/html; charset=utf-8\r\n\r\n"
          ++ contents := by
      unfold handle_static_request
      dsimp only
      rw [h]
    refine ⟨?_, ?_, ?_, ?_⟩
    · rw [hr, show str "HTTP/1.1 200 OK\r\nServer: nextWeb/0.1.0\r\nContent-Type: text/html; charset=utf-8\r\n\r\n" =
        str "HTTP/1.1 200" ++
          str " OK\r\nServer: nextWeb/0.1.0\r\nContent-Type: text/html; charset=utf-8\r\n\r\n"
        from by decide, List.append_assoc]
      exact isPrefixOf_append_self _ _
    · refine ⟨str "HTTP/1.1 200 OK",
        str "Content-Type: text/html; charset=utf-8\r\n\r\n" ++ contents, ?_⟩
      rw [hr, show str "HTTP/1.1 200 OK\r\nServer: nextWeb/0.1.0\r\nContent-Type: text/html; charset=utf-8\r\n\r\n" =
        str "HTTP/1.1 200 OK" ++ str "\r\nServer: nextWeb/0.1.0\r\n" ++
          str "Content-Type: text/html; charset=utf-8\r\n\r\n" from by decide]
      simp [List.append_assoc]
    · refine ⟨str "HTTP/1.1 200 OK\r\nServer: nextWeb/0.1.0",
        str "\r\n" ++ contents, ?_⟩
      rw [hr, show str "HTTP/1.1 200 OK\r\nServer: nextWeb/0.1.0\r\nContent-Type: text/html; charset=utf-8\r\n\r\n" =
        str "HTTP/1.1 200 OK\r\nServer: nextWeb/0.1.0" ++
          str "\r\nContent-Type: text/html; charset=utf-8\r\n" ++ str "\r\n" from by decide]
      simp [List.append_assoc]
    · rw [hr]
      exact httpBody_of_header _ contents
        (str "HTTP/1.1 200 OK\r\nServer: nextWeb/0.1.0\r\nContent-Type: text/html; charset=utf-8")
        (by decide)
  · intro h
    have hr : handle_static_request fs sc path =
        str "HTTP/1.1 404 Not Found\r\n\r\n404 Not Found" := by
      unfold handle_static_request
      dsimp only
      rw [h]
    refine ⟨hr, ?_⟩
    rw [hr]
    decide
  · intro h
    unfold handle_static_request
    dsimp only
    rw [h]

/-- C6 witness: the theorem applied to a one-file filesystem serving
`"hello"` for path `"/"` through index file `"i.html"`. -/
theorem static_response_spec_wit :
    osOpen fsDemo ((⟨str "w", str "i.html"⟩ : StaticConfig).webroot ++ str "/" ++
      (if str "/" = str "/" then (⟨str "w", str "i.html"⟩ : StaticConfig).index
       else str "/")) = some (some (str "hello")) ∧
    httpBody (handle_static_request fsDemo ⟨str "w", str "i.html"⟩ (str "/")) =
      str "hello" :=
  ⟨by decide,
    ((static_response_spec fsDemo ⟨str "w", str "i.html"⟩ (str "/")).1 (str "hello")
      (by decide)).2.2.2⟩

/-- C9: the claim asserts every handled connection emits exactly one
access-log record; on the code a proxy dispatch whose backend host is not a
socket-address literal panics before `log_access` runs, so the connection is
handled without emitting any record (the `none` outcome). -/
theorem handle_client_no_log_cex :
    handle_client (some (str "1.2.3.4:5")) (some [])
      ⟨str "proxy", none, some ⟨str "backend.local:80", false, [], false⟩⟩
      (fun _ => none) ⟨true, true, some []⟩ = none := by
  decide

/-- C9 (amended): every handled connection on which dispatch completes
without panicking emits exactly one access-log record; a read failure logs
path `"-"` with status 400 and writes no response; otherwise the record
carries the extracted path and the status classified from the response's
status line, and the response is written back. -/
theorem handle_client_log_spec (peer : Option (List Char)) (readRes : Option (List Nat))
    (cfg : ServerConfig) (fs : List Char → Option (Option (List Char))) (net : Net)
    (out : List LogRecord × Option (List Char))
    (h : handle_client peer readRes cfg fs net = some out) :
    out.1.length = 1 ∧
    (readRes = none → out = ([⟨clientName peer, str "-", 400⟩], none)) ∧
    (∀ s, readRes = some s → ∃ resp, out =
      ([⟨clientName peer, extract_path (buffer1024 s), statusOf resp⟩], some resp)) := by
  cases readRes with
  | none =>
    simp only [handle_client] at h
    have heq := Option.some.inj h
    refine ⟨by simp [← heq], fun _ => heq.symm, fun s hs => Option.noConfusion hs⟩
  | some s =>
    simp only [handle_client] at h
    split at h
    · exact Option.noConfusion h
    · rename_i response hresp
      have heq := Option.some.inj h
      refine ⟨by simp [← heq], fun hn => Option.noConfusion hn, fun s' hs' => ?_⟩
      have hss : s = s' := Option.some.inj hs'
      subst hss
      exact ⟨response, heq.symm⟩

/-- C9 witness: the amended theorem applied to a connection on a server of
unknown type, which logs exactly one record with status 501. -/
theorem handle_client_log_spec_wit :
    handle_client none (some ((str "GET / X").map Char.toNat)) ⟨str "x", none, none⟩
      (fun _ => none) ⟨true, true, none⟩ =
      some ([⟨str "unknown", str "/", 501⟩],
        some (str "HTTP/1.1 501 Not Implemented\r\n\r\n501 Not Implemented")) ∧
    (([⟨str "unknown", str "/", 501⟩],
      some (str "HTTP/1.1 501 Not Implemented\r\n\r\n501 Not Implemented")) :
        List LogRecord × Option (List Char)).1.length = 1 :=
  ⟨by decide,
    (handle_client_log_spec none (some ((str "GET / X").map Char.toNat))
      ⟨str "x", none, none⟩ (fun _ => none) ⟨true, true, none⟩ _ (by decide)).1⟩

/-- C10: the request text `handle_client` hands to the proxy responder is the
lossy decoding of the whole fixed 1024-byte buffer: the bytes read are
truncated to 1024 and padded with the buffer's zero initialization, so for a
short request the text ends in the remaining NUL characters, and a longer
request contributes only its first 1024 bytes. -/
theorem request_buffer_lossy_spec (s : List Nat) :
    requestText s =
      utf8Lossy (s.take 1024 ++ List.replicate (1024 - (s.take 1024).length) 0) ∧
    requestText s = utf8Lossy (s.take 1024) ++
      List.replicate (1024 - (s.take 1024).length) (Char.ofNat 0) ∧
    List.replicate (1024 - (s.take 1024).length) (Char.ofNat 0) <:+ requestText s := by
  refine ⟨rfl, ?_, ?_⟩
  · show utf8Lossy (buffer1024 s) = _
    unfold buffer1024
    exact utf8Lossy_append_zeros _ _
  · show _ <:+ utf8Lossy (buffer1024 s)
    unfold buffer1024
    rw [utf8Lossy_append_zeros]
    exact List.suffix_append _ _
